import Mathlib

/-!
Verification development for the pdf-trend-analyzer repository.

The repository contains three parallel front ends (`app.py`,
`streamlit_app.py`, `streamlit_app_full.py`) sharing the same core logic:
a regex-based record extractor, an incremental merge of records keyed by
(date, instrument), a date x instrument pivot, a change annotator and a
column ordering policy.  This file gives a shallow embedding of that core
and proves/refutes the frozen specification claims.

Strings are modelled with Lean `String`/`List Char`; Python floats on the
decimal literals occurring here are modelled exactly by `ℚ`; Python regex
scanning for the concrete patterns in the source is implemented directly
as character scanners with the same leftmost/greedy-backtracking
semantics.
-/

namespace PdfTrend

/-! ## Generic keep-last deduplication

`pandas.DataFrame.drop_duplicates(subset=key, keep='last')` keeps, for
every key, the last row having that key, preserving the order of the
surviving rows.  `streamlit_app.py` (lines 200-203) applies it with key
(日期, 品种); `app.py` (lines 312-315) applies
`combined_df[~combined_df.index.duplicated(keep='last')]` with the date
index as key.  Both are instances of `dedupKeepLastBy`. -/

variable {α : Type} {κ : Type} [DecidableEq κ]

/-- True when some element of `l` has key `k`. -/
def hasKeyBy (keyf : α → κ) (l : List α) (k : κ) : Bool :=
  l.any (fun x => decide (keyf x = k))

/-- Keep-last deduplication on key `keyf`, as performed by
`drop_duplicates(keep='last')`: an element survives iff no later element
shares its key, and survivors keep their relative order. -/
def dedupKeepLastBy (keyf : α → κ) : List α → List α
  | [] => []
  | x :: xs =>
    if hasKeyBy keyf xs (keyf x) then dedupKeepLastBy keyf xs
    else x :: dedupKeepLastBy keyf xs

/-- The last element of `l` whose key is `k`, if any. -/
def lookupLastBy (keyf : α → κ) : List α → κ → Option α
  | [], _ => none
  | x :: xs, k =>
    match lookupLastBy keyf xs k with
    | some y => some y
    | none => if keyf x = k then some x else none

/-- Number of elements of `l` with key `k`. -/
def countKeyBy (keyf : α → κ) (l : List α) (k : κ) : Nat :=
  l.countP (fun x => decide (keyf x = k))

/-- Boolean "all keys distinct" predicate. -/
def noDupKeysBy (keyf : α → κ) : List α → Bool
  | [] => true
  | x :: xs => !hasKeyBy keyf xs (keyf x) && noDupKeysBy keyf xs

/-- First-of-two `Option` choice (used to state last-write-wins lookups). -/
def optOr : Option α → Option α → Option α
  | some a, _ => some a
  | none, b => b

theorem lookupLastBy_nil (keyf : α → κ) (k : κ) :
    lookupLastBy keyf [] k = none := rfl

theorem lookupLastBy_cons (keyf : α → κ) (x : α) (xs : List α) (k : κ) :
    lookupLastBy keyf (x :: xs) k =
      match lookupLastBy keyf xs k with
      | some y => some y
      | none => if keyf x = k then some x else none := rfl

theorem hasKeyBy_nil (keyf : α → κ) (k : κ) : hasKeyBy keyf [] k = false := rfl

theorem hasKeyBy_cons (keyf : α → κ) (x : α) (xs : List α) (k : κ) :
    hasKeyBy keyf (x :: xs) k = (decide (keyf x = k) || hasKeyBy keyf xs k) := by
  simp [hasKeyBy]

theorem hasKeyBy_append (keyf : α → κ) (l m : List α) (k : κ) :
    hasKeyBy keyf (l ++ m) k = (hasKeyBy keyf l k || hasKeyBy keyf m k) := by
  simp [hasKeyBy]

theorem lookupLastBy_eq_none_iff (keyf : α → κ) (l : List α) (k : κ) :
    lookupLastBy keyf l k = none ↔ hasKeyBy keyf l k = false := by
  induction l with
  | nil => simp [lookupLastBy, hasKeyBy]
  | cons x xs ih =>
    rw [hasKeyBy_cons]
    cases h : lookupLastBy keyf xs k with
    | some y =>
      simp only [lookupLastBy, h]
      constructor
      · intro hc; cases hc
      · intro hc
        rw [Bool.or_eq_false_iff] at hc
        exact absurd (ih.mpr hc.2) (by simp [h])
    | none =>
      simp only [lookupLastBy, h]
      rw [ih] at h
      by_cases hk : keyf x = k
      · simp [hk, h]
      · simp [hk, h]

theorem lookupLastBy_dedup (keyf : α → κ) (l : List α) (k : κ) :
    lookupLastBy keyf (dedupKeepLastBy keyf l) k = lookupLastBy keyf l k := by
  induction l with
  | nil => rfl
  | cons x xs ih =>
    rw [dedupKeepLastBy]
    by_cases h : hasKeyBy keyf xs (keyf x) = true
    · rw [if_pos h, ih, lookupLastBy_cons]
      cases hx : lookupLastBy keyf xs k with
      | some y => rfl
      | none =>
        have hk : keyf x ≠ k := by
          intro he
          rw [lookupLastBy_eq_none_iff] at hx
          rw [he, hx] at h
          cases h
        simp [hk]
    · rw [if_neg h, lookupLastBy_cons, lookupLastBy_cons, ih]

theorem lookupLastBy_append (keyf : α → κ) (l m : List α) (k : κ) :
    lookupLastBy keyf (l ++ m) k =
      optOr (lookupLastBy keyf m k) (lookupLastBy keyf l k) := by
  induction l with
  | nil =>
    cases h : lookupLastBy keyf m k <;> simp [optOr, h, lookupLastBy_nil]
  | cons x xs ih =>
    rw [List.cons_append, lookupLastBy_cons, ih, lookupLastBy_cons]
    cases h : lookupLastBy keyf m k <;> cases h2 : lookupLastBy keyf xs k <;>
      simp [optOr]

theorem countKeyBy_dedup (keyf : α → κ) (l : List α) (k : κ) :
    countKeyBy keyf (dedupKeepLastBy keyf l) k =
      if hasKeyBy keyf l k then 1 else 0 := by
  induction l with
  | nil => simp [dedupKeepLastBy, countKeyBy, hasKeyBy]
  | cons x xs ih =>
    rw [hasKeyBy_cons]
    by_cases h : hasKeyBy keyf xs (keyf x) = true
    · rw [dedupKeepLastBy, if_pos h, ih]
      by_cases hk : keyf x = k
      · subst hk; simp [h]
      · simp [hk]
    · rw [dedupKeepLastBy, if_neg h]
      by_cases hk : keyf x = k
      · subst hk
        simp only [countKeyBy, List.countP_cons, decide_eq_true_eq] at *
        simp [ih, h]
      · simp only [countKeyBy, List.countP_cons, decide_eq_true_eq] at *
        simp [ih, hk]

theorem hasKeyBy_dedup (keyf : α → κ) (l : List α) (k : κ) :
    hasKeyBy keyf (dedupKeepLastBy keyf l) k = hasKeyBy keyf l k := by
  induction l with
  | nil => rfl
  | cons x xs ih =>
    by_cases h : hasKeyBy keyf xs (keyf x) = true
    · rw [dedupKeepLastBy, if_pos h, ih, hasKeyBy_cons]
      by_cases hk : keyf x = k
      · subst hk; simp [h]
      · simp [hk]
    · rw [dedupKeepLastBy, if_neg h, hasKeyBy_cons, hasKeyBy_cons, ih]

theorem dedup_append (keyf : α → κ) (l m : List α) :
    dedupKeepLastBy keyf (l ++ m) =
      (dedupKeepLastBy keyf l).filter (fun x => !hasKeyBy keyf m (keyf x)) ++
        dedupKeepLastBy keyf m := by
  induction l with
  | nil => simp [dedupKeepLastBy]
  | cons x xs ih =>
    simp only [List.cons_append]
    rw [dedupKeepLastBy, hasKeyBy_append, dedupKeepLastBy]
    by_cases h : hasKeyBy keyf xs (keyf x) = true
    · rw [if_pos (by simp [h]), if_pos h, ih]
    · by_cases hm : hasKeyBy keyf m (keyf x) = true
      · rw [if_pos (by simp [h, hm]), if_neg h, ih, List.filter_cons]
        simp [hm]
      · rw [if_neg (by simp [h, hm]), if_neg h, ih, List.filter_cons]
        simp [hm]

theorem mem_dedup_subset (keyf : α → κ) (l : List α) (x : α)
    (h : x ∈ dedupKeepLastBy keyf l) : x ∈ l := by
  induction l with
  | nil => cases h
  | cons y ys ih =>
    rw [dedupKeepLastBy] at h
    by_cases hy : hasKeyBy keyf ys (keyf y) = true
    · rw [if_pos hy] at h
      exact List.mem_cons_of_mem _ (ih h)
    · rw [if_neg hy] at h
      rcases List.mem_cons.mp h with h1 | h2
      · exact h1 ▸ List.mem_cons_self _ _
      · exact List.mem_cons_of_mem _ (ih h2)

theorem filter_self_keys_nil (keyf : α → κ) (l : List α) :
    (dedupKeepLastBy keyf l).filter (fun x => !hasKeyBy keyf l (keyf x)) = [] := by
  rw [List.filter_eq_nil_iff]
  intro x hx
  have hmem : x ∈ l := mem_dedup_subset keyf l x hx
  have : hasKeyBy keyf l (keyf x) = true := by
    simp only [hasKeyBy, List.any_eq_true]
    exact ⟨x, hmem, by simp⟩
  simp [this]

theorem dedup_idem (keyf : α → κ) (l : List α) :
    dedupKeepLastBy keyf (dedupKeepLastBy keyf l) = dedupKeepLastBy keyf l := by
  induction l with
  | nil => rfl
  | cons x xs ih =>
    by_cases h : hasKeyBy keyf xs (keyf x) = true
    · rw [dedupKeepLastBy, if_pos h, ih]
    · rw [dedupKeepLastBy, if_neg h, dedupKeepLastBy,
        if_neg (by rw [hasKeyBy_dedup]; exact h), ih]

theorem dedup_of_noDupKeys (keyf : α → κ) (l : List α)
    (h : noDupKeysBy keyf l = true) : dedupKeepLastBy keyf l = l := by
  induction l with
  | nil => rfl
  | cons x xs ih =>
    rw [noDupKeysBy, Bool.and_eq_true, Bool.not_eq_true'] at h
    rw [dedupKeepLastBy, if_neg (by simp [h.1]), ih h.2]

/-! ## Records and the incremental merge

`streamlit_app.py` keeps records as dicts `{品种, 趋势强度, 日期}`
(instrument, trend-strength string, date); `save_trend_strength_pivot_csv`
(lines 195-203) merges historical records with new ones by
`pd.concat([historical_df, new_df])` followed by
`drop_duplicates(subset=['日期', '品种'], keep='last')`. -/

/-- One record of `streamlit_app.py`: 品种 / 趋势强度 / 日期. -/
structure Record where
  variety : String
  strength : String
  date : String
  deriving DecidableEq, Repr

/-- The (日期, 品种) composite key of a record. -/
def keyR (r : Record) : String × String := (r.date, r.variety)

/-- Incremental merge of `streamlit_app.py` lines 200-203: concatenate
`existing ++ incoming` and drop duplicates on (日期, 品种), keeping the
last occurrence. -/
def mergeRecords (existing incoming : List Record) : List Record :=
  dedupKeepLastBy keyR (existing ++ incoming)

/-! ## Character classes and low-level string helpers

These model the character classes of the regexes in the source:
`[一-龥A-Za-z0-9（）()]` for the primary instrument pattern and
`[一-鿿]` for the fallback pattern, Python `\s` (ASCII whitespace;
the Unicode-only whitespace code points never occur in the texts handled
here), and ASCII `\d`. -/

/-- Character class of the primary pattern and of the validation regex
`^[一-龥A-Za-z0-9（）()]+$`. -/
def isAllowedPrimary (c : Char) : Bool :=
  (0x4e00 ≤ c.toNat && c.toNat ≤ 0x9fa5) ||
  ('A' ≤ c && c ≤ 'Z') || ('a' ≤ c && c ≤ 'z') || ('0' ≤ c && c ≤ '9') ||
  c = '（' || c = '）' || c = '(' || c = ')'

/-- Character class `[一-鿿]` of the fallback variety patterns. -/
def isCJKFull (c : Char) : Bool :=
  0x4e00 ≤ c.toNat && c.toNat ≤ 0x9fff

/-- Python `\s` on the code points occurring in these documents. -/
def pySpace (c : Char) : Bool :=
  c = ' ' || c = '\t' || c = '\n' || c = '\r' || c = '\x0b' || c = '\x0c'

/-- ASCII decimal digit. -/
def isDigitA (c : Char) : Bool := '0' ≤ c && c ≤ '9'

/-- Does `cs` start with the character sequence `pre`? -/
def startsWithChars : List Char → List Char → Bool
  | [], _ => true
  | _ :: _, [] => false
  | p :: ps, c :: cs => p = c && startsWithChars ps cs

/-- Is `needle` a contiguous subsequence of `haystack` (Python `in`)? -/
def containsChars (needle : List Char) : List Char → Bool
  | [] => startsWithChars needle []
  | c :: cs => startsWithChars needle (c :: cs) || containsChars needle cs

/-- Python `sub in s` on strings. -/
def containsStr (needle s : String) : Bool :=
  containsChars needle.data s.data

/-- Python `str.strip()`: drop whitespace from both ends. -/
def pyStripList (cs : List Char) : List Char :=
  ((cs.dropWhile pySpace).reverse.dropWhile pySpace).reverse

/-- Python `str.strip()` lifted to `String`. -/
def pyStrip (s : String) : String :=
  String.mk (pyStripList s.data)

/-- Python `str.isdigit()` restricted to ASCII digits (the only digits the
primary character class admits). -/
def pyIsDigit (s : String) : Bool :=
  !s.data.isEmpty && s.data.all isDigitA

/-- The literal 趋势强度 ("trend strength"). -/
def labelChars : List Char := ['趋', '势', '强', '度']

/-! ## Number parsing

Models the regex `[+-]?\d+(?:\.\d+)?` and, on the raw strings it captures,
Python `float` exactly (decimal literals are exact rationals). -/

/-- Numeric value of a list of ASCII digits. -/
def digitsToNat (ds : List Char) : Nat :=
  ds.foldl (fun n c => 10 * n + (c.toNat - '0'.toNat)) 0

/-- Match `[+-]?\d+(?:\.\d+)?` at the head of `cs`; return the raw matched
characters and the rest.  As in the regex, a trailing `.` not followed by
a digit is left unconsumed. -/
def parseNumTail (cs : List Char) : Option (List Char × List Char) :=
  let signAndRest : List Char × List Char :=
    match cs with
    | c :: t => if c = '+' || c = '-' then ([c], t) else ([], cs)
    | [] => ([], [])
  let sign := signAndRest.1
  let cs1 := signAndRest.2
  let ds := cs1.takeWhile isDigitA
  if ds.isEmpty then none
  else
    let cs2 := cs1.drop ds.length
    match cs2 with
    | '.' :: d :: t =>
      if isDigitA d then
        let fs := (d :: t).takeWhile isDigitA
        some (sign ++ ds ++ '.' :: fs, (d :: t).drop fs.length)
      else some (sign ++ ds, cs2)
    | _ => some (sign ++ ds, cs2)

/-- Exact value of a raw `[+-]?\d+(?:\.\d+)?` literal, as Python `float`
computes it (decimal literals modelled exactly in `ℚ`). -/
def decChars? (cs : List Char) : Option ℚ :=
  match parseNumTail cs with
  | some (_, rest) =>
    if rest.isEmpty then
      let hasMinus : Bool := match cs with | c :: _ => c = '-' | [] => false
      let body : List Char :=
        match cs with
        | c :: t => if c = '+' || c = '-' then t else cs
        | [] => []
      let intPart := body.takeWhile isDigitA
      let fracPart := (body.drop (intPart.length + 1)).takeWhile isDigitA
      let k := fracPart.length
      let numAbs : ℤ := Int.ofNat (digitsToNat intPart * 10 ^ k + digitsToNat fracPart)
      some (mkRat (if hasMinus then -numAbs else numAbs) (10 ^ k))
    else none
  | none => none

/-- Python `float(s)` on the decimal-literal subset relevant here
(`[+-]?\d+(\.\d+)?`); everything else — in particular the sentinel
`"--"` — fails, modelling the `ValueError` branch. -/
def pyFloat? (s : String) : Option ℚ :=
  decChars? s.data

/-! ## The primary regex scanner

`re.findall(r'([一-龥A-Za-z0-9（）()]+)\s*趋势强度[：:]\s*([+-]?\d+(?:\.\d+)?)', text)`
appears identically in all three files.  It is implemented here with the
exact engine semantics for this pattern: leftmost match start, greedy
capture with backtracking (the label's own characters lie in the capture
class), deterministic tail, and resumption after each match. -/

/-- Tail of the primary pattern after the instrument capture:
`\s*趋势强度[：:]\s*([+-]?\d+(?:\.\d+)?)`.  Returns the raw numeric
capture and the remaining input. -/
def primTail (cs : List Char) : Option (List Char × List Char) :=
  let cs1 := cs.dropWhile pySpace
  if startsWithChars labelChars cs1 then
    match cs1.drop 4 with
    | c :: rest2 =>
      if c = '：' || c = ':' then
        parseNumTail (rest2.dropWhile pySpace)
      else none
    | [] => none
  else none

/-- Greedy backtracking over the capture length: try capture length `k`
first, then `k-1`, ..., down to 1, matching `tailM` after the capture.
Returns (capture, numeric capture, rest). -/
def tryCapK (tailM : List Char → Option (List Char × List Char))
    (cs : List Char) : Nat → Option (List Char × List Char × List Char)
  | 0 => none
  | k + 1 =>
    match tailM (cs.drop (k + 1)) with
    | some (num, rest) => some (cs.take (k + 1), num, rest)
    | none => tryCapK tailM cs k

/-- One scan step plus continuation, fuel-bounded.  At each position the
capture is a non-empty prefix of the maximal `classF`-run (greedy, with
backtracking through `tryCapK`); on failure the scan advances one
character, on success it resumes after the match.  Every successful match
consumes at least one character, so fuel `cs.length` is exact. -/
def scanAux (classF : Char → Bool)
    (tailM : List Char → Option (List Char × List Char)) :
    Nat → List Char → List (String × String)
  | 0, _ => []
  | _ + 1, [] => []
  | fuel + 1, c :: cs' =>
    let cs := c :: cs'
    let run := cs.takeWhile classF
    match tryCapK tailM cs run.length with
    | some (cap, num, rest) =>
      (String.mk cap, String.mk num) :: scanAux classF tailM fuel rest
    | none => scanAux classF tailM fuel cs'

/-- All matches of a capture-class/tail pattern in `cs`, in order. -/
def scanAll (classF : Char → Bool)
    (tailM : List Char → Option (List Char × List Char))
    (cs : List Char) : List (String × String) :=
  scanAux classF tailM cs.length cs

/-- All matches of the primary pattern in `text`, as
(raw instrument capture, raw numeric string) pairs. -/
def primMatches (text : String) : List (String × String) :=
  scanAll isAllowedPrimary primTail text.data

/-! ## Candidate validation (identical in all three files) -/

/-- The fixed denylist `invalid_keywords` of administrative/noise tokens. -/
def invalidKeywords : List String :=
  ["趋势", "强度", "注释", "东莞", "达孚", "公司", "有限", "集团"]

/-- Does `cs` end with the character sequence `suf`? -/
def endsWithChars (suf cs : List Char) : Bool :=
  startsWithChars suf.reverse cs.reverse

/-- The cleanup `if variety.endswith('趋势强度'): variety = variety[:-4]`. -/
def stripLabelSuffix (v : String) : String :=
  if endsWithChars labelChars v.data then
    String.mk (v.data.take (v.data.length - 4))
  else v

/-- The candidate filter of the primary pass: non-empty, no denylisted
substring, not purely numeric, and matching
`^[一-龥A-Za-z0-9（）()]+$`. -/
def validVariety (v : String) : Bool :=
  decide (0 < v.data.length) &&
  !(invalidKeywords.any (fun kw => containsStr kw v)) &&
  !(pyIsDigit v) &&
  (!v.data.isEmpty && v.data.all isAllowedPrimary)

/-- Python `round` to zero decimals (round-half-to-even, as used by
`int(round(strength_float))` in `streamlit_app.py`). -/
def roundHalfEven (q : ℚ) : ℤ :=
  let d : ℤ := (q.den : ℤ)
  let f : ℤ := q.num / d
  let r : ℤ := q.num % d
  if 2 * r < d then f
  else if d < 2 * r then f + 1
  else if f % 2 = 0 then f else f + 1

/-! ## Date scanners shared by `app.py` and the full app's extractor

`extract_trend_strength_from_text` in `app.py` (lines 204-216) and in
`streamlit_app_full.py` (lines 85-97) scan the body text with, in order,
`(\d{4})(\d{2})(\d{2})`, `(\d{4})-(\d{2})-(\d{2})`,
`(\d{4})/(\d{2})/(\d{2})`, formatting the first match as `y-m-d` with no
calendar validation. -/

/-- Leftmost run of 8 consecutive ASCII digits, as matched by
`re.search(r'(\d{8})', ...)` / `(\d{4})(\d{2})(\d{2})`. -/
def find8 : List Char → Option (List Char)
  | [] => none
  | c :: cs =>
    let w := (c :: cs).take 8
    if w.length = 8 && w.all isDigitA then some w
    else find8 cs

/-- Leftmost match of `(\d{4})<sep>(\d{2})<sep>(\d{2})`. -/
def findSepDate (sep : Char) : List Char → Option (List Char × List Char × List Char)
  | [] => none
  | c :: cs =>
    match c :: cs with
    | y1 :: y2 :: y3 :: y4 :: s1 :: m1 :: m2 :: s2 :: d1 :: d2 :: _ =>
      if [y1, y2, y3, y4, m1, m2, d1, d2].all isDigitA && s1 = sep && s2 = sep then
        some ([y1, y2, y3, y4], [m1, m2], [d1, d2])
      else findSepDate sep cs
    | _ => findSepDate sep cs

/-- Format raw digit groups as `y-m-d` (f-string interpolation of the
captured substrings). -/
def fmtYMDChars (y m d : List Char) : String :=
  String.mk (y ++ '-' :: m ++ '-' :: d)

/-- Body-text date scan of `app.py` lines 204-216 / full app lines 84-97:
first match of 8-digit, then dash, then slash pattern, formatted with no
calendar validation. -/
def findBodyDate3 (cs : List Char) : Option String :=
  match find8 cs with
  | some w => some (fmtYMDChars (w.take 4) ((w.drop 4).take 2) (w.drop 6))
  | none =>
    match findSepDate '-' cs with
    | some (y, m, d) => some (fmtYMDChars y m d)
    | none =>
      match findSepDate '/' cs with
      | some (y, m, d) => some (fmtYMDChars y m d)
      | none => none

/-! ## The three primary-pass extractors -/

/-- One record of `app.py`'s extractor: the trend strength is stored as
the parsed float (`strength_value`). -/
structure RecordApp where
  variety : String
  value : ℚ
  date : String
  deriving DecidableEq, Repr

/-- Record of `streamlit_app_full.py`'s extractor: raw numeric string plus
parsed float, with optional sequence number and category from the
fallback pass. -/
structure RecordFull where
  variety : String
  strengthRaw : String
  value : ℚ
  seq : Option Nat
  category : Option String
  date : String
  deriving DecidableEq, Repr

/-- Match-processing loop of `app.py` lines 230-263: strip, drop the
label suffix, validate, parse, range-check, and deduplicate on the
(variety, parsed float) pair `key = (variety, strength_value)`. -/
def processApp : List (String × String) → List (String × ℚ) → String → List RecordApp
  | [], _, _ => []
  | (v, n) :: ms, seen, date =>
    let v1 := stripLabelSuffix (pyStrip v)
    if validVariety v1 then
      match pyFloat? n with
      | some q =>
        if -10 ≤ q ∧ q ≤ 10 then
          if (v1, q) ∈ seen then processApp ms seen date
          else ⟨v1, q, date⟩ :: processApp ms ((v1, q) :: seen) date
        else processApp ms seen date
      | none => processApp ms seen date
    else processApp ms seen date

/-- Match-processing loop of `streamlit_app.py` lines 107-139: same
validation, then `strength_int = int(round(strength_float))` and dedup on
`key = (variety, strength_str)` with the rounded integer string. -/
def processLite : List (String × String) → List (String × String) → String → List Record
  | [], _, _ => []
  | (v, n) :: ms, seen, date =>
    let v1 := stripLabelSuffix (pyStrip v)
    if validVariety v1 then
      match pyFloat? n with
      | some q =>
        if -10 ≤ q ∧ q ≤ 10 then
          let zs := toString (roundHalfEven q)
          if (v1, zs) ∈ seen then processLite ms seen date
          else ⟨v1, zs, date⟩ :: processLite ms ((v1, zs) :: seen) date
        else processLite ms seen date
      | none => processLite ms seen date
    else processLite ms seen date

/-- Match-processing loop of `streamlit_app_full.py` lines 115-153: same
validation, raw string kept as the value, dedup on
`key = (variety, strength)` with the raw numeric string. -/
def processFullPrim : List (String × String) → List (String × String) → String → List RecordFull
  | [], _, _ => []
  | (v, n) :: ms, seen, date =>
    let v1 := stripLabelSuffix (pyStrip v)
    if validVariety v1 then
      match pyFloat? n with
      | some q =>
        if -10 ≤ q ∧ q ≤ 10 then
          if (v1, n) ∈ seen then processFullPrim ms seen date
          else ⟨v1, n, q, none, none, date⟩ :: processFullPrim ms ((v1, n) :: seen) date
        else processFullPrim ms seen date
      | none => processFullPrim ms seen date
    else processFullPrim ms seen date

/-- The date chosen by the extractors of `app.py` and
`streamlit_app_full.py`: the given report date, else the first body-text
pattern match, else today. -/
def resolveDateBody3 (reportDate : Option String) (text today : String) : String :=
  match reportDate with
  | some d => d
  | none =>
    match findBodyDate3 text.data with
    | some d => d
    | none => today

/-- `extract_trend_strength_from_text` of `app.py` (lines 190-265).
`today` stands for `datetime.now().strftime('%Y-%m-%d')`. -/
def extractApp (text : String) (reportDate : Option String) (today : String) :
    List RecordApp :=
  processApp (primMatches text) [] (resolveDateBody3 reportDate text today)

/-- `extract_trend_strength_from_text` of `streamlit_app.py`
(lines 73-167): the date is the given report date or today; no body-text
date scan. -/
def extractLite (text : String) (reportDate : Option String) (today : String) :
    List Record :=
  processLite (primMatches text) [] (reportDate.getD today)

/-! ## The fallback (sectioned-category) pass of `streamlit_app_full.py`

Lines 155-244: when the primary pattern yields nothing, find a
【趋势强度】 section, split it into the three category blocks
偏强 / 中性 / 偏弱, and collect `name(number)`, `name: number`, or
`name number` pairs inside each block, deduplicating by name
(first occurrence wins) and numbering from 1. -/

/-- Leftmost occurrence of the literal `needle`; returns the input after
the literal. -/
def dropAfterLit (needle : List Char) : List Char → Option (List Char)
  | [] => if startsWithChars needle [] then some [] else none
  | c :: cs =>
    if startsWithChars needle (c :: cs) then some ((c :: cs).drop needle.length)
    else dropAfterLit needle cs

/-- Lazy capture `(.*?)` up to the first position where `cond` holds (or
end of input), with DOTALL semantics. -/
def takeUntilCond (cond : List Char → Bool) : List Char → List Char
  | [] => []
  | c :: cs => if cond (c :: cs) then [] else c :: takeUntilCond cond cs

/-- Leftmost position where `f` yields a match (`re.search`). -/
def findMapOpt {β : Type} (f : List Char → Option β) : List Char → Option β
  | [] => f []
  | c :: cs =>
    match f (c :: cs) with
    | some b => some b
    | none => findMapOpt f cs

/-- The 【趋势强度】 section: the three heading patterns of lines 160-164
in order, each capturing lazily up to the next opening bracket or the end
of text. -/
def findTrendSection (cs : List Char) : Option (List Char) :=
  let upToBracket := takeUntilCond fun t =>
    match t with | c :: _ => c = '【' | [] => false
  match dropAfterLit "【趋势强度】".data cs with
  | some rest => some (upToBracket rest)
  | none =>
    match dropAfterLit "趋势强度".data cs with
    | some rest => some (upToBracket rest)
    | none =>
      match dropAfterLit "[趋势强度]".data cs with
      | some rest =>
        some (takeUntilCond (fun t => match t with | c :: _ => c = '[' | [] => false) rest)
      | none => none

/-- The three category labels, in dict order. -/
def catNames : List String := ["偏强", "中性", "偏弱"]

/-- Lookahead `(?:偏强|中性|偏弱)[：:]`. -/
def catColonAt (t : List Char) : Bool :=
  catNames.any fun cn =>
    startsWithChars cn.data t &&
      (match t.drop 2 with | c :: _ => c = '：' || c = ':' | [] => false)

/-- Lookahead `(?:偏强|中性|偏弱)`. -/
def catNameAt (t : List Char) : Bool :=
  catNames.any fun cn => startsWithChars cn.data t

/-- Lookahead `\n\n|\n[^一-鿿]`. -/
def nlBoundaryAt (t : List Char) : Bool :=
  match t with
  | '\n' :: c :: _ => c = '\n' || !isCJKFull c
  | _ => false

/-- Category pattern 1: `cat[：:](.*?)(?=(?:偏强|中性|偏弱)[：:]|$)`. -/
def catPat1 (cat : List Char) (cs : List Char) : Option (List Char) :=
  if startsWithChars cat cs then
    match cs.drop cat.length with
    | c :: rest =>
      if c = '：' || c = ':' then some (takeUntilCond catColonAt rest) else none
    | [] => none
  else none

/-- Category pattern 2: `cat\s*[：:]\s*(.*?)(?=(?:偏强|中性|偏弱)|$)`. -/
def catPat2 (cat : List Char) (cs : List Char) : Option (List Char) :=
  if startsWithChars cat cs then
    match (cs.drop cat.length).dropWhile pySpace with
    | c :: rest =>
      if c = '：' || c = ':' then
        some (takeUntilCond catNameAt (rest.dropWhile pySpace))
      else none
    | [] => none
  else none

/-- Category pattern 3: `cat\s*[:：]\s*(.*?)(?=\n\n|\n[^一-鿿]|$)`. -/
def catPat3 (cat : List Char) (cs : List Char) : Option (List Char) :=
  if startsWithChars cat cs then
    match (cs.drop cat.length).dropWhile pySpace with
    | c :: rest =>
      if c = ':' || c = '：' then
        some (takeUntilCond nlBoundaryAt (rest.dropWhile pySpace))
      else none
    | [] => none
  else none

/-- Raw text of one category block: first of the three patterns that
matches anywhere in the section. -/
def catContent (cat : List Char) (sect : List Char) : Option (List Char) :=
  match findMapOpt (catPat1 cat) sect with
  | some r => some r
  | none =>
    match findMapOpt (catPat2 cat) sect with
    | some r => some r
    | none => findMapOpt (catPat3 cat) sect

/-- Tail of fallback variety pattern 1: `\s*[（(]num[）)]`. -/
def fbTailParen (cs : List Char) : Option (List Char × List Char) :=
  match cs.dropWhile pySpace with
  | c :: rest =>
    if c = '（' || c = '(' then
      match parseNumTail rest with
      | some (num, rest2) =>
        match rest2 with
        | c2 :: rest3 => if c2 = '）' || c2 = ')' then some (num, rest3) else none
        | [] => none
      | none => none
    else none
  | [] => none

/-- Tail of fallback variety pattern 2: `\s*[：:]\s*num`. -/
def fbTailColon (cs : List Char) : Option (List Char × List Char) :=
  match cs.dropWhile pySpace with
  | c :: rest =>
    if c = '：' || c = ':' then parseNumTail (rest.dropWhile pySpace) else none
  | [] => none

/-- Tail of fallback variety pattern 3: `\s+num`. -/
def fbTailSpaceNum (cs : List Char) : Option (List Char × List Char) :=
  let sp := cs.takeWhile pySpace
  if sp.isEmpty then none else parseNumTail (cs.drop sp.length)

/-- Within-category dedup of lines 217-223: keep the first pair for each
stripped variety name. -/
def dedupFirstByName : List (String × String) → List String → List (String × String)
  | [], _ => []
  | (v, n) :: rest, seen =>
    let k := pyStrip v
    if k ∈ seen then dedupFirstByName rest seen
    else (v, n) :: dedupFirstByName rest (k :: seen)

/-- Record construction of lines 225-242: enumerate from 1, parse, and
keep the pair only when the value lies in [-10, 10].  No denylist,
numeric-string, or character-class check is applied here. -/
def fbRecords (cat date : String) : List (String × String) → Nat → List RecordFull
  | [], _ => []
  | (v, n) :: rest, i =>
    match pyFloat? n with
    | some q =>
      if -10 ≤ q ∧ q ≤ 10 then
        ⟨pyStrip v, n, q, some i, some cat, date⟩ :: fbRecords cat date rest (i + 1)
      else fbRecords cat date rest (i + 1)
    | none => fbRecords cat date rest (i + 1)

/-- The entire fallback pass of `streamlit_app_full.py` lines 155-244. -/
def extractFullFallback (text : String) (date : String) : List RecordFull :=
  match findTrendSection text.data with
  | none => []
  | some sect =>
    (catNames.map fun cat =>
      match catContent cat.data sect with
      | some r =>
        let content := pyStripList r
        if content.isEmpty then []
        else
          let vs :=
            scanAll isCJKFull fbTailParen content ++
            scanAll isCJKFull fbTailColon content ++
            scanAll isCJKFull fbTailSpaceNum content
          fbRecords cat date (dedupFirstByName vs []) 1
      | none => []).flatten

/-- `extract_trend_strength_from_text` of `streamlit_app_full.py`
(lines 71-260): body-date scan, primary pass, and the fallback pass when
the primary pass yields no record. -/
def extractFull (text : String) (reportDate : Option String) (today : String) :
    List RecordFull :=
  let rd := resolveDateBody3 reportDate text today
  let prim := processFullPrim (primMatches text) [] rd
  if prim.isEmpty then extractFullFallback text rd else prim

/-! ## The date resolver of `analyze_pdf_trend_strength`
(`streamlit_app_full.py` lines 504-552): validated 8-digit filename run,
then validated body patterns in order 年月日, dash, slash, 8-digit, then
the current date. -/

/-- Gregorian leap year, as implemented by `datetime`. -/
def isLeap (y : Nat) : Bool :=
  y % 4 = 0 && (y % 100 ≠ 0 || y % 400 = 0)

/-- Days in a month. -/
def monthLen (y m : Nat) : Nat :=
  if m = 2 then (if isLeap y then 29 else 28)
  else if m = 4 || m = 6 || m = 9 || m = 11 then 30
  else 31

/-- Success of `datetime.strptime(f"{y}-{m}-{d}", '%Y-%m-%d')` on the
numeric components: calendar-valid date with year in `datetime`'s range. -/
def validYMD (y m d : Nat) : Bool :=
  1 ≤ y && y ≤ 9999 && 1 ≤ m && m ≤ 12 && 1 ≤ d && d ≤ monthLen y m

/-- Python `str.zfill(2)` on a digit group. -/
def zfill2 (cs : List Char) : List Char :=
  if cs.length = 1 then '0' :: cs else cs

/-- Greedy `\d{1,2}` followed by the literal `mark`. -/
def digits12Before (mark : Char) : List Char → Option (List Char × List Char)
  | a :: b :: c :: rest =>
    if isDigitA a && isDigitA b && c = mark then some ([a, b], rest)
    else if isDigitA a && b = mark then some ([a], c :: rest)
    else none
  | [a, b] => if isDigitA a && b = mark then some ([a], []) else none
  | _ => none

/-- Match `(\d{4})年(\d{1,2})月(\d{1,2})日` at the head of the input. -/
def cnDateAt (cs : List Char) : Option (List Char × List Char × List Char) :=
  match cs with
  | y1 :: y2 :: y3 :: y4 :: '年' :: rest =>
    if [y1, y2, y3, y4].all isDigitA then
      match digits12Before '月' rest with
      | some (mcs, rest2) =>
        match digits12Before '日' rest2 with
        | some (dcs, _) => some ([y1, y2, y3, y4], mcs, dcs)
        | none => none
      | none => none
    else none
  | _ => none

/-- Format with `zfill(2)` and validate via `strptime`, as lines 538-547. -/
def checkBodyCandidate (y m d : List Char) : Option String :=
  let mz := zfill2 m
  let dz := zfill2 d
  if validYMD (digitsToNat y) (digitsToNat mz) (digitsToNat dz) then
    some (fmtYMDChars y mz dz)
  else none

/-- Body pattern `(\d{4})年(\d{1,2})月(\d{1,2})日`, validated. -/
def bodyCandCn (cs : List Char) : Option String :=
  match findMapOpt cnDateAt cs with
  | some (y, m, d) => checkBodyCandidate y m d
  | none => none

/-- Body pattern `(\d{4})-(\d{2})-(\d{2})`, validated. -/
def bodyCandDash (cs : List Char) : Option String :=
  match findSepDate '-' cs with
  | some (y, m, d) => checkBodyCandidate y m d
  | none => none

/-- Body pattern `(\d{4})/(\d{2})/(\d{2})`, validated. -/
def bodyCandSlash (cs : List Char) : Option String :=
  match findSepDate '/' cs with
  | some (y, m, d) => checkBodyCandidate y m d
  | none => none

/-- Body pattern `(\d{4})(\d{2})(\d{2})`, validated. -/
def bodyCand8 (cs : List Char) : Option String :=
  match find8 cs with
  | some w => checkBodyCandidate (w.take 4) ((w.drop 4).take 2) (w.drop 6)
  | none => none

/-- Body-text date scan of lines 526-547: patterns in order
年月日, `-`, `/`, 8-digit; the first structural match of each pattern is
validated and an invalid one falls through to the next pattern. -/
def bodyDateFull (cs : List Char) : Option String :=
  optOr (bodyCandCn cs) (optOr (bodyCandDash cs) (optOr (bodyCandSlash cs) (bodyCand8 cs)))

/-- Date candidate from the filename (lines 506-523): the first 8-digit
run, validated; an invalid run is not retried, the resolver falls through
to the body text. -/
def fnDateFull (fn : List Char) : Option String :=
  match find8 fn with
  | some w =>
    let y := w.take 4
    let m := (w.drop 4).take 2
    let d := w.drop 6
    if validYMD (digitsToNat y) (digitsToNat m) (digitsToNat d) then
      some (fmtYMDChars y m d)
    else none
  | none => none

/-- The full date resolver of `analyze_pdf_trend_strength`
(`streamlit_app_full.py` lines 504-552).  `today` stands for
`datetime.now().strftime('%Y-%m-%d')`. -/
def resolveDateFull (filename : Option String) (text : String) (today : String) :
    String :=
  let fnDate :=
    match filename with
    | some fn => fnDateFull fn.data
    | none => none
  match fnDate with
  | some s => s
  | none =>
    match bodyDateFull text.data with
    | some s => s
    | none => today

/-! ## Sorting and uniqueness helpers (pandas index/column handling) -/

/-- Keep-first uniqueness with an accumulator of already-seen values. -/
def uniqueFirstAux : List String → List String → List String
  | [], _ => []
  | x :: xs, seen =>
    if x ∈ seen then uniqueFirstAux xs seen
    else x :: uniqueFirstAux xs (x :: seen)

/-- Distinct values of a list, first occurrences in order. -/
def uniqueFirst (l : List String) : List String :=
  uniqueFirstAux l []

/-- Lexicographic comparison of character lists by code point, the order
pandas uses on string indices. -/
def charsLe : List Char → List Char → Bool
  | [], _ => true
  | _ :: _, [] => false
  | a :: as, b :: bs =>
    if a = b then charsLe as bs else decide (a.toNat < b.toNat)

/-- Lexicographic `<=` on strings. -/
def strLe (a b : String) : Bool := charsLe a.data b.data

/-- Insert into a sorted list. -/
def insertLe {α : Type} (le : α → α → Bool) (x : α) : List α → List α
  | [] => [x]
  | y :: ys => if le x y then x :: y :: ys else y :: insertLe le x ys

/-- Insertion sort. -/
def sortByLe {α : Type} (le : α → α → Bool) : List α → List α
  | [] => []
  | x :: xs => insertLe le x (sortByLe le xs)

/-! ## The pivot of `streamlit_app.py` (lines 223-277)

Cells are strings; values are normalized by
`str(int(float(x))) if x.replace('.','').replace('-','').isdigit() else x`
and missing cells filled with the sentinel `'--'`. -/

/-- Python `int(float(s))` (truncation toward zero) on an exact decimal. -/
def ratTrunc (q : ℚ) : ℤ :=
  Int.tdiv q.num (q.den : ℤ)

/-- The per-value normalization of lines 230-234.  On inputs passing the
digit test but rejected by `float` the source would raise; such inputs
never reach this code and the original string is returned for totality. -/
def pyNormalize (s : String) : String :=
  let stripped := s.data.filter fun c => !(c = '.' || c = '-')
  if !stripped.isEmpty && stripped.all isDigitA then
    match pyFloat? s with
    | some q => toString (ratTrunc q)
    | none => s
  else s

/-- Is there a record for the (日期, 品种) cell? -/
def hasRecordLite (recs : List Record) (d c : String) : Bool :=
  recs.any fun r => r.date == d && r.variety == c

/-- One cell of the `streamlit_app.py` pivot
(`pivot_table(aggfunc='first', fill_value='--')` over the normalized
strength column): the first matching record's normalized strength, or
the sentinel `'--'`. -/
def pivotCellLite (recs : List Record) (d c : String) : String :=
  match recs.find? (fun r => r.date == d && r.variety == c) with
  | some r => pyNormalize r.strength
  | none => "--"

/-! ## Column ordering policy (`streamlit_app.py` lines 249-273) -/

/-- The four buckets of `classify_value`. -/
inductive TrendGrp
  | pos
  | neg
  | zero
  | missing
  deriving DecidableEq, Repr

/-- `classify_value` of lines 254-263: parse as float (`'missing'` on
failure), then sign. -/
def classifyValue (v : String) : TrendGrp :=
  match pyFloat? v with
  | none => TrendGrp.missing
  | some n => if 0 < n then TrendGrp.pos else if n < 0 then TrendGrp.neg else TrendGrp.zero

/-- Python `set(a) == set(b)`. -/
def setEqB (a b : List String) : Bool :=
  a.all (fun x => decide (x ∈ b)) && b.all (fun x => decide (x ∈ a))

/-- Column reordering of lines 265-273: bucket the columns by the latest
row's value, order the buckets positive, negative, zero, missing, and
reorder only if the result covers exactly the original column set. -/
def orderColumns (cols : List String) (latest : String → String) : List String :=
  let gPos := cols.filter fun c => decide (classifyValue (latest c) = TrendGrp.pos)
  let gNeg := cols.filter fun c => decide (classifyValue (latest c) = TrendGrp.neg)
  let gZero := cols.filter fun c => decide (classifyValue (latest c) = TrendGrp.zero)
  let gMiss := cols.filter fun c => decide (classifyValue (latest c) = TrendGrp.missing)
  let ordered := gPos ++ gNeg ++ gZero ++ gMiss
  if setEqB ordered cols then ordered else cols

/-- The pivot DataFrame of `streamlit_app.py`: date rows sorted newest
first, ordered columns, and the cell accessor. -/
structure PivotLite where
  dates : List String
  cols : List String
  cell : String → String → String

/-- Pivot construction of lines 236-273: pivot on normalized strengths,
sort dates descending, and apply the column ordering policy keyed on the
newest row. -/
def buildPivotLite (combined : List Record) : PivotLite :=
  let dates := sortByLe (fun a b => strLe b a) (uniqueFirst (combined.map (·.date)))
  let cols0 := sortByLe strLe (uniqueFirst (combined.map (·.variety)))
  let cols :=
    if dates.isEmpty then cols0
    else orderColumns cols0 (fun c => pivotCellLite combined (dates.headD "") c)
  ⟨dates, cols, fun d c => pivotCellLite combined d c⟩

/-! ## The persist entry point of `streamlit_app.py` (lines 170-277) -/

/-- The mutable state touched by `save_trend_strength_pivot_csv`:
`st.session_state.historical_data` (absent key modelled as `none`) and
the durable CSV `data/trend_strength_data.csv`. -/
structure StoreStateLite where
  historical : Option (List Record)
  csvFile : Option (List Record)
  deriving DecidableEq, Repr

/-- `save_trend_strength_pivot_csv` of `streamlit_app.py`: `None` on an
empty record list (line 188-189, before any state access), else merge
when incremental and history is non-empty, store the combined set in the
session and the CSV, and build the pivot. -/
def saveTrendStrengthPivotLite (data : List Record) (incremental : Bool)
    (s : StoreStateLite) : Option PivotLite × StoreStateLite :=
  if data.isEmpty then (none, s)
  else
    let combined :=
      match s.historical with
      | some h => if incremental && !h.isEmpty then mergeRecords h data else data
      | none => data
    (some (buildPivotLite combined),
      { historical := some combined, csvFile := some combined })

/-! ## The pivot and change annotator of `app.py` (lines 267-376)

`app.py` pivots the parsed float values with `fill_value=0.0` (and the
default mean aggregation), sorts dates ascending, and builds a change
table marking a cell with `★` when it differs from the cell above. -/

/-- Exact rational addition, written out on numerator and denominator
(definitionally equal in value to `+` on `ℚ`, but expressed through
`mkRat` so that concrete cells evaluate). -/
def ratAddK (a b : ℚ) : ℚ :=
  mkRat (a.num * (b.den : ℤ) + b.num * (a.den : ℤ)) (a.den * b.den)

/-- Exact division of a rational by a natural number, via `mkRat`. -/
def ratDivNatK (a : ℚ) (n : Nat) : ℚ :=
  mkRat a.num (a.den * n)

/-- One cell of the `app.py` pivot: mean (the `pivot_table` default
aggregation) of the matching records' values — keys are unique in
practice, so this is the record's value — and `0.0` for a missing
(date, instrument) pair (`fill_value=0.0` / `fillna(0.0)`). -/
def cellApp (recs : List RecordApp) (d c : String) : ℚ :=
  let vs := (recs.filter fun r => r.date == d && r.variety == c).map (·.value)
  if vs.isEmpty then 0 else ratDivNatK (vs.foldl ratAddK 0) vs.length

/-- Is there a record for the (date, instrument) cell? -/
def hasRecordApp (recs : List RecordApp) (d c : String) : Bool :=
  recs.any fun r => r.date == d && r.variety == c

/-- The row index of the `app.py` pivot: distinct dates sorted
ascending. -/
def datesAppAsc (recs : List RecordApp) : List String :=
  sortByLe strLe (uniqueFirst (recs.map (·.date)))

/-- Display form of a cell value (`str(current_value)`; the exact float
formatting differs from `toString` on `ℚ` but plays no role in any
claim, which concern only the `★` prefix and value equality). -/
def ratToStr (q : ℚ) : String := toString q

/-- One cell of `change_df` (lines 337-352): row 0 shows the plain value;
a later row is prefixed with `★` exactly when its raw value differs from
the same column's value one row above. -/
def changeCellApp (recs : List RecordApp) (i : Nat) (col : String) : String :=
  let dates := datesAppAsc recs
  let cur := cellApp recs (dates.getD i "") col
  if i = 0 then ratToStr cur
  else if cur ≠ cellApp recs (dates.getD (i - 1) "") col then "★" ++ ratToStr cur
  else ratToStr cur

/-! ## The pivot-level incremental merge of `app.py` (lines 302-321)

`app.py` persists the pivot itself and merges by
`pd.concat([existing_pivot_df, new_pivot_df])` followed by
`combined_df[~combined_df.index.duplicated(keep='last')]` — keep-last
deduplication on the date index, i.e. whole rows — then `fillna(0.0)`. -/

/-- A row of the persisted pivot: a date with its present cells. -/
abbrev PivotRowA := String × List (String × ℚ)

/-- The `app.py` pivot merge: keep-last dedup of whole rows by date. -/
def mergeAppPivot (existing incoming : List PivotRowA) : List PivotRowA :=
  dedupKeepLastBy Prod.fst (existing ++ incoming)

/-- Does the pivot hold an entry for the (date, instrument) key? -/
def pivotHasKeyA (p : List PivotRowA) (d c : String) : Bool :=
  p.any fun row => row.1 == d && (row.2.any fun cell => cell.1 == c)

/-- Cell lookup in a persisted pivot; absent entries read as `0.0` after
column alignment and `fillna(0.0)`. -/
def cellOfPivotA (p : List PivotRowA) (d c : String) : ℚ :=
  match p.find? (fun row => row.1 == d) with
  | some row =>
    match row.2.find? (fun cell => cell.1 == c) with
    | some cell => cell.2
    | none => 0
  | none => 0

/-! ## Supporting lemmas for the merge claims -/

theorem mergeRecords_def (e i : List Record) :
    mergeRecords e i = dedupKeepLastBy keyR (e ++ i) := rfl

theorem merge_assoc_absorb (e i : List Record) :
    mergeRecords (mergeRecords e i) i = mergeRecords e i := by
  rw [mergeRecords_def, mergeRecords_def,
    dedup_append keyR (dedupKeepLastBy keyR (e ++ i)) i, dedup_idem,
    dedup_append keyR e i, List.filter_append, List.filter_filter]
  simp only [Bool.and_self]
  rw [filter_self_keys_nil keyR i]
  simp

theorem merge_self (s : List Record) (h : noDupKeysBy keyR s = true) :
    mergeRecords s s = s := by
  rw [mergeRecords_def, dedup_append, dedup_of_noDupKeys keyR s h]
  have h0 := filter_self_keys_nil keyR s
  rw [dedup_of_noDupKeys keyR s h] at h0
  rw [h0, List.nil_append]

/-! ## Claim theorems -/

/-- C1 (counterexample): in `app.py`'s pivot-level merge, deduplication is
by whole date row, so the key (2025-01-19, 白糖), present only in the
existing store, is *not* preserved when the incoming data shares the date:
the merged pivot no longer contains it and its cell reads as the fill
value 0 instead of the existing score 2.  This refutes the claim that a
key present only in `existing` is preserved unchanged by the merge. -/
theorem appPivotMerge_drops_existing_key :
    pivotHasKeyA [("2025-01-19", [("白糖", (2 : ℚ))])] "2025-01-19" "白糖" = true ∧
    pivotHasKeyA [("2025-01-19", [("铜", (1 : ℚ))])] "2025-01-19" "白糖" = false ∧
    pivotHasKeyA
      (mergeAppPivot [("2025-01-19", [("白糖", (2 : ℚ))])]
        [("2025-01-19", [("铜", (1 : ℚ))])]) "2025-01-19" "白糖" = false ∧
    cellOfPivotA
      (mergeAppPivot [("2025-01-19", [("白糖", (2 : ℚ))])]
        [("2025-01-19", [("铜", (1 : ℚ))])]) "2025-01-19" "白糖" = 0 ∧
    cellOfPivotA [("2025-01-19", [("白糖", (2 : ℚ))])] "2025-01-19" "白糖" = 2 := by
  refine ⟨rfl, rfl, rfl, ?_, ?_⟩ <;> decide

/-- C1 (amended): the record-level merge of `streamlit_app.py` does obey
last-write-wins on the (日期, 品种) key: the merged store holds exactly
one record for every key present in either input — the (last) incoming
record for that key when the key occurs in `incoming`, otherwise the
(last) existing record, so a key present only in `existing` keeps its
existing record unchanged.  (`app.py`'s pivot-level merge does not have
this property; see the counterexample.) -/
theorem mergeRecords_last_write_wins :
    ∀ (existing incoming : List Record) (k : String × String),
      lookupLastBy keyR (mergeRecords existing incoming) k =
        optOr (lookupLastBy keyR incoming k) (lookupLastBy keyR existing k) ∧
      countKeyBy keyR (mergeRecords existing incoming) k =
        (if hasKeyBy keyR (existing ++ incoming) k then 1 else 0) := by
  intro e i k
  constructor
  · rw [mergeRecords_def, lookupLastBy_dedup, lookupLastBy_append]
  · rw [mergeRecords_def, countKeyBy_dedup]

/-- C9: the merge of `streamlit_app.py` is idempotent:
`merge(merge(existing, incoming), incoming) = merge(existing, incoming)`
unconditionally, and `merge(S, S) = S` for every record set `S`
(a collection with at most one record per (日期, 品种) key). -/
theorem merge_idempotent :
    (∀ existing incoming : List Record,
      mergeRecords (mergeRecords existing incoming) incoming =
        mergeRecords existing incoming) ∧
    (∀ s : List Record, noDupKeysBy keyR s = true → mergeRecords s s = s) :=
  ⟨merge_assoc_absorb, merge_self⟩

/-- C9 (witness): the idempotence theorem applied at the store
`{(2025-01-19, 铜): 1}` merged with `{(2025-01-19, 铜): -2}`, and at a
concrete duplicate-free store. -/
theorem merge_idempotent_witness :
    mergeRecords
        (mergeRecords [⟨"铜", "1", "2025-01-19"⟩] [⟨"铜", "-2", "2025-01-19"⟩])
        [⟨"铜", "-2", "2025-01-19"⟩] =
      mergeRecords [⟨"铜", "1", "2025-01-19"⟩] [⟨"铜", "-2", "2025-01-19"⟩] ∧
    mergeRecords [⟨"铜", "1", "2025-01-19"⟩, ⟨"白糖", "3", "2025-01-20"⟩]
        [⟨"铜", "1", "2025-01-19"⟩, ⟨"白糖", "3", "2025-01-20"⟩] =
      [⟨"铜", "1", "2025-01-19"⟩, ⟨"白糖", "3", "2025-01-20"⟩] :=
  ⟨merge_idempotent.1 [⟨"铜", "1", "2025-01-19"⟩] [⟨"铜", "-2", "2025-01-19"⟩],
    merge_idempotent.2 [⟨"铜", "1", "2025-01-19"⟩, ⟨"白糖", "3", "2025-01-20"⟩]
      (by decide)⟩

/-- C10: calling the merge/pivot/persist entry point of
`streamlit_app.py` with an empty record list returns `None` and leaves the
state (session historical store and durable CSV) untouched; the result is
the same for every state, so no state is consulted. -/
theorem save_empty_noop :
    ∀ (incremental : Bool) (s : StoreStateLite),
      saveTrendStrengthPivotLite [] incremental s = (none, s) := by
  intro incremental s
  rfl

theorem count_filter_ite (p : String → Bool) (l : List String) (a : String) :
    List.count a (l.filter p) = if p a then List.count a l else 0 := by
  by_cases hp : p a = true
  · rw [if_pos hp, List.count_filter hp]
  · rw [if_neg hp, List.count_eq_zero]
    intro hmem
    exact hp (List.mem_filter.mp hmem).2

theorem filter_buckets_perm (cols : List String) (latest : String → String) :
    ((cols.filter fun c => decide (classifyValue (latest c) = TrendGrp.pos)) ++
     (cols.filter fun c => decide (classifyValue (latest c) = TrendGrp.neg)) ++
     (cols.filter fun c => decide (classifyValue (latest c) = TrendGrp.zero)) ++
     (cols.filter fun c => decide (classifyValue (latest c) = TrendGrp.missing))).Perm
      cols := by
  rw [List.perm_iff_count]
  intro a
  rw [List.count_append, List.count_append, List.count_append,
    count_filter_ite, count_filter_ite, count_filter_ite, count_filter_ite]
  rcases h : classifyValue (latest a) <;> simp [h]

/-- C8: the column ordering policy of `streamlit_app.py` returns a
permutation of the original column set — never dropping or duplicating a
column — equal to the concatenation positive ++ negative ++ zero ++
missing of the four buckets of the most-recent row's values, each bucket
preserving the original relative order (it is a `filter` of the original
column list); the defensive same-set check always passes, so the original
order is kept only in the (unreachable) non-permutation case. -/
theorem orderColumns_perm_buckets :
    ∀ (cols : List String) (latest : String → String),
      (orderColumns cols latest).Perm cols ∧
      orderColumns cols latest =
        (cols.filter fun c => decide (classifyValue (latest c) = TrendGrp.pos)) ++
        (cols.filter fun c => decide (classifyValue (latest c) = TrendGrp.neg)) ++
        (cols.filter fun c => decide (classifyValue (latest c) = TrendGrp.zero)) ++
        (cols.filter fun c => decide (classifyValue (latest c) = TrendGrp.missing)) := by
  intro cols latest
  have hperm := filter_buckets_perm cols latest
  have hset : setEqB
      ((cols.filter fun c => decide (classifyValue (latest c) = TrendGrp.pos)) ++
       (cols.filter fun c => decide (classifyValue (latest c) = TrendGrp.neg)) ++
       (cols.filter fun c => decide (classifyValue (latest c) = TrendGrp.zero)) ++
       (cols.filter fun c => decide (classifyValue (latest c) = TrendGrp.missing)))
      cols = true := by
    rw [setEqB, Bool.and_eq_true, List.all_eq_true, List.all_eq_true]
    refine ⟨fun x hx => ?_, fun x hx => ?_⟩
    · simp only [decide_eq_true_eq]
      exact hperm.mem_iff.mp hx
    · simp only [decide_eq_true_eq]
      exact hperm.mem_iff.mpr hx
  have heq : orderColumns cols latest =
      (cols.filter fun c => decide (classifyValue (latest c) = TrendGrp.pos)) ++
      (cols.filter fun c => decide (classifyValue (latest c) = TrendGrp.neg)) ++
      (cols.filter fun c => decide (classifyValue (latest c) = TrendGrp.zero)) ++
      (cols.filter fun c => decide (classifyValue (latest c) = TrendGrp.missing)) := by
    show (if setEqB
        ((cols.filter fun c => decide (classifyValue (latest c) = TrendGrp.pos)) ++
         (cols.filter fun c => decide (classifyValue (latest c) = TrendGrp.neg)) ++
         (cols.filter fun c => decide (classifyValue (latest c) = TrendGrp.zero)) ++
         (cols.filter fun c => decide (classifyValue (latest c) = TrendGrp.missing)))
        cols then _ else cols) = _
    rw [if_pos hset]
  exact ⟨heq ▸ hperm, heq⟩

/-- The (品种, raw numeric string) dedup key of the full app's primary
pass. -/
def keyFull (r : RecordFull) : String × String := (r.variety, r.strengthRaw)

theorem processFullPrim_nodup (ms : List (String × String))
    (seen : List (String × String)) (date : String) :
    noDupKeysBy keyFull (processFullPrim ms seen date) = true ∧
    ∀ k ∈ seen, hasKeyBy keyFull (processFullPrim ms seen date) k = false := by
  induction ms generalizing seen with
  | nil => simp [processFullPrim, noDupKeysBy, hasKeyBy]
  | cons m rest ih =>
    obtain ⟨v, n⟩ := m
    simp only [processFullPrim]
    by_cases hv : validVariety (stripLabelSuffix (pyStrip v)) = true
    · rw [if_pos hv]
      cases hq : pyFloat? n with
      | none => exact ih seen
      | some q =>
        dsimp only
        by_cases hr : -10 ≤ q ∧ q ≤ 10
        · rw [if_pos hr]
          by_cases hs : (stripLabelSuffix (pyStrip v), n) ∈ seen
          · rw [if_pos hs]
            exact ih seen
          · rw [if_neg hs]
            have ih2 := ih ((stripLabelSuffix (pyStrip v), n) :: seen)
            constructor
            · rw [noDupKeysBy, Bool.and_eq_true, Bool.not_eq_true']
              exact ⟨ih2.2 _ (List.mem_cons_self _ _), ih2.1⟩
            · intro k hk
              rw [hasKeyBy_cons, Bool.or_eq_false_iff]
              constructor
              · simp only [decide_eq_false_iff_not, keyFull]
                intro he
                exact hs (he ▸ hk)
              · exact ih2.2 k (List.mem_cons_of_mem _ hk)
        · rw [if_neg hr]
          exact ih seen
    · rw [if_neg hv]
      exact ih seen

/-- C5 (counterexample): on the duplicate text `"白糖 趋势强度: 3.5"` with
resolved date 2025-01-20, the extractor of `streamlit_app.py` (cited in
the claim) does produce exactly one Record for 白糖, but its stored score
is the *rounded integer string* `"4"` (`int(round(3.5))`), not 3.5 — the
score is re-represented, refuting "score is exactly 3.5 (not rounded or
re-represented)". -/
theorem lite_rounds_score :
    extractLite "白糖 趋势强度: 3.5\n白糖 趋势强度: 3.5" (some "2025-01-20")
        "2099-01-01" =
      [⟨"白糖", "4", "2025-01-20"⟩] ∧
    pyFloat? "4" = some 4 ∧ pyFloat? "3.5" = some (mkRat 7 2) ∧
    mkRat 7 2 ≠ 4 := by
  refine ⟨by decide, by decide, by decide, by decide⟩

/-- C5 (amended): on the duplicate text with resolved date 2025-01-20,
both cited extractors produce exactly one Record for 白糖 dated
2025-01-20; `app.py` keeps the score exactly 3.5, while
`streamlit_app.py` stores the rounded integer string `"4"`. -/
theorem duplicate_scenario_single_record :
    extractApp "白糖 趋势强度: 3.5\n白糖 趋势强度: 3.5" (some "2025-01-20")
        "2099-01-01" =
      [⟨"白糖", mkRat 7 2, "2025-01-20"⟩] ∧
    extractLite "白糖 趋势强度: 3.5\n白糖 趋势强度: 3.5" (some "2025-01-20")
        "2099-01-01" =
      [⟨"白糖", "4", "2025-01-20"⟩] := by
  refine ⟨by decide, by decide⟩

/-- C4 (counterexample): `app.py`'s within-pass dedup key is
(instrument, parsed float) — `key = (variety, strength_value)` at line
254 — so the same instrument with the two distinct raw numeric strings
`"3"` and `"3.0"` (equal as floats) yields a single Record, refuting the
claim that both survive. -/
theorem app_dedup_collapses_equal_values :
    extractApp "铜 趋势强度: 3\n铜 趋势强度: 3.0" (some "2025-01-20")
        "2099-01-01" =
      [⟨"铜", 3, "2025-01-20"⟩] ∧
    pyFloat? "3" = pyFloat? "3.0" ∧ "3" ≠ "3.0" := by
  refine ⟨by decide, by decide, by decide⟩

/-- C4 (amended): the raw-string dedup key is the behavior of
`streamlit_app_full.py` only: there the within-pass key is
(instrument, raw numeric string), so exact repeats are dropped (the
output never contains two records with the same key) while `"3"` and
`"3.0"` for the same instrument both survive; in `app.py` the key is
(instrument, parsed value) and the two collapse to one record. -/
theorem full_dedup_raw_string_key :
    (∀ (ms : List (String × String)) (date : String),
      noDupKeysBy keyFull (processFullPrim ms [] date) = true) ∧
    extractFull "铜 趋势强度: 3\n铜 趋势强度: 3.0" (some "2025-01-20")
        "2099-01-01" =
      [⟨"铜", "3", 3, none, none, "2025-01-20"⟩,
       ⟨"铜", "3.0", 3, none, none, "2025-01-20"⟩] ∧
    extractFull "白糖 趋势强度: 3.5\n白糖 趋势强度: 3.5" (some "2025-01-20")
        "2099-01-01" =
      [⟨"白糖", "3.5", mkRat 7 2, none, none, "2025-01-20"⟩] := by
  refine ⟨?_, by decide, by decide⟩
  intro ms date
  exact (processFullPrim_nodup ms [] date).1

/-! ## Supporting lemmas for the date-resolver claim -/

theorem checkBodyCandidate_valid (y m d : List Char) (s : String)
    (h : checkBodyCandidate y m d = some s) :
    ∃ yc mc dc : List Char,
      s = fmtYMDChars yc mc dc ∧
      validYMD (digitsToNat yc) (digitsToNat mc) (digitsToNat dc) = true := by
  unfold checkBodyCandidate at h
  by_cases hv : validYMD (digitsToNat y) (digitsToNat (zfill2 m))
      (digitsToNat (zfill2 d)) = true
  · rw [if_pos hv] at h
    exact ⟨y, zfill2 m, zfill2 d, (Option.some_injective _ h).symm, hv⟩
  · rw [if_neg hv] at h
    cases h

theorem optOr_eq_some {α : Type} (a b : Option α) (s : α)
    (h : optOr a b = some s) : a = some s ∨ b = some s := by
  cases a with
  | some x => left; exact h
  | none => right; exact h

theorem bodyCandCn_valid (cs : List Char) (s : String)
    (h : bodyCandCn cs = some s) :
    ∃ yc mc dc : List Char,
      s = fmtYMDChars yc mc dc ∧
      validYMD (digitsToNat yc) (digitsToNat mc) (digitsToNat dc) = true := by
  unfold bodyCandCn at h
  cases h1 : findMapOpt cnDateAt cs with
  | some t =>
    obtain ⟨y, m, d⟩ := t
    rw [h1] at h
    exact checkBodyCandidate_valid y m d s h
  | none => rw [h1] at h; cases h

theorem bodyCandDash_valid (cs : List Char) (s : String)
    (h : bodyCandDash cs = some s) :
    ∃ yc mc dc : List Char,
      s = fmtYMDChars yc mc dc ∧
      validYMD (digitsToNat yc) (digitsToNat mc) (digitsToNat dc) = true := by
  unfold bodyCandDash at h
  cases h1 : findSepDate '-' cs with
  | some t =>
    obtain ⟨y, m, d⟩ := t
    rw [h1] at h
    exact checkBodyCandidate_valid y m d s h
  | none => rw [h1] at h; cases h

theorem bodyCandSlash_valid (cs : List Char) (s : String)
    (h : bodyCandSlash cs = some s) :
    ∃ yc mc dc : List Char,
      s = fmtYMDChars yc mc dc ∧
      validYMD (digitsToNat yc) (digitsToNat mc) (digitsToNat dc) = true := by
  unfold bodyCandSlash at h
  cases h1 : findSepDate '/' cs with
  | some t =>
    obtain ⟨y, m, d⟩ := t
    rw [h1] at h
    exact checkBodyCandidate_valid y m d s h
  | none => rw [h1] at h; cases h

theorem bodyCand8_valid (cs : List Char) (s : String)
    (h : bodyCand8 cs = some s) :
    ∃ yc mc dc : List Char,
      s = fmtYMDChars yc mc dc ∧
      validYMD (digitsToNat yc) (digitsToNat mc) (digitsToNat dc) = true := by
  unfold bodyCand8 at h
  cases h1 : find8 cs with
  | some w =>
    rw [h1] at h
    exact checkBodyCandidate_valid _ _ _ s h
  | none => rw [h1] at h; cases h

theorem bodyDateFull_valid (cs : List Char) (s : String)
    (h : bodyDateFull cs = some s) :
    ∃ yc mc dc : List Char,
      s = fmtYMDChars yc mc dc ∧
      validYMD (digitsToNat yc) (digitsToNat mc) (digitsToNat dc) = true := by
  unfold bodyDateFull at h
  rcases optOr_eq_some _ _ _ h with h1 | h
  · exact bodyCandCn_valid cs s h1
  rcases optOr_eq_some _ _ _ h with h2 | h
  · exact bodyCandDash_valid cs s h2
  rcases optOr_eq_some _ _ _ h with h3 | h4
  · exact bodyCandSlash_valid cs s h3
  · exact bodyCand8_valid cs s h4

theorem fnDateFull_valid (l : List Char) (s : String)
    (h : fnDateFull l = some s) :
    ∃ yc mc dc : List Char,
      s = fmtYMDChars yc mc dc ∧
      validYMD (digitsToNat yc) (digitsToNat mc) (digitsToNat dc) = true := by
  unfold fnDateFull at h
  cases h1 : find8 l with
  | some w =>
    simp only [h1] at h
    by_cases hv : validYMD (digitsToNat (w.take 4)) (digitsToNat ((w.drop 4).take 2))
        (digitsToNat (w.drop 6)) = true
    · rw [if_pos hv] at h
      exact ⟨w.take 4, (w.drop 4).take 2, w.drop 6, (Option.some_injective _ h).symm, hv⟩
    · rw [if_neg hv] at h
      cases h
  | none => rw [h1] at h; cases h

/-- C3 (counterexample): `app.py`'s extractor scans the body text for
date patterns with *no calendar validation*: on a text containing the
8-digit run `20251399` (month 13, day 99) the structurally matching
candidate is returned as the resolved date, and the emitted record
carries the invalid date `2025-13-99` — refuting "every structurally
matching candidate whose calendar value is invalid is rejected ... never
returned as the resolved date". -/
theorem app_returns_invalid_calendar_date :
    extractApp "铜 趋势强度: 3\n20251399" none "2099-09-09" =
      [⟨"铜", 3, "2025-13-99"⟩] ∧
    validYMD 2025 13 99 = false := by
  refine ⟨by decide, by decide⟩

/-- C3 (amended): the validated-priority description holds of
`streamlit_app_full.py`'s resolver (`analyze_pdf_trend_strength`), with
the body patterns tried in the order 年月日, `YYYY-MM-DD`, `YYYY/MM/DD`,
`YYYYMMDD` (not the order stated in the spec): (1) every resolved date
other than the current-date fallback is calendar-valid, invalid
structural matches being skipped; (2) a calendar-valid first 8-digit
filename run always wins regardless of the body text; (3) in the body,
the localized 年月日 pattern is preferred even when an 8-digit run occurs
earlier in the text.  `app.py`'s resolver performs no calendar validation
at all (see the counterexample). -/
theorem dateResolver_validated_priority :
    (∀ (fn : Option String) (text today : String),
      resolveDateFull fn text today = today ∨
      ∃ yc mc dc : List Char,
        resolveDateFull fn text today = fmtYMDChars yc mc dc ∧
        validYMD (digitsToNat yc) (digitsToNat mc) (digitsToNat dc) = true) ∧
    (∀ (fn text today : String) (w : List Char),
      find8 fn.data = some w →
      validYMD (digitsToNat (w.take 4)) (digitsToNat ((w.drop 4).take 2))
        (digitsToNat (w.drop 6)) = true →
      resolveDateFull (some fn) text today =
        fmtYMDChars (w.take 4) ((w.drop 4).take 2) (w.drop 6)) ∧
    resolveDateFull none "20250103 2025年1月2日" "2099-09-09" = "2025-01-02" := by
  refine ⟨?_, ?_, by decide⟩
  · intro fn text today
    unfold resolveDateFull
    cases hf : (match fn with | some f => fnDateFull f.data | none => none) with
    | some s =>
      right
      have hs : fnDateFull ((fn.getD "").data) = some s := by
        cases fn with
        | some f => exact hf
        | none => cases hf
      obtain ⟨yc, mc, dc, he, hv⟩ := fnDateFull_valid _ s hs
      exact ⟨yc, mc, dc, he ▸ rfl, hv⟩
    | none =>
      cases hb : bodyDateFull text.data with
      | some s =>
        right
        obtain ⟨yc, mc, dc, he, hv⟩ := bodyDateFull_valid _ s hb
        exact ⟨yc, mc, dc, he ▸ rfl, hv⟩
      | none => left; rfl
  · intro fn text today w h8 hv
    unfold resolveDateFull fnDateFull
    dsimp only
    rw [h8]
    dsimp only
    rw [if_pos hv]

/-- C3 (witness): the amended theorem applied to the filename
`report_20250120.pdf` (valid first 8-digit run) with an arbitrary body,
together with the validity disjunction instantiated at a concrete
unresolvable text. -/
theorem dateResolver_validated_priority_witness :
    resolveDateFull (some "report_20250120.pdf") "ignored body" "2099-09-09" =
      fmtYMDChars ['2', '0', '2', '5'] ['0', '1'] ['2', '0'] ∧
    (resolveDateFull none "no date here" "2099-09-09" = "2099-09-09" ∨
      ∃ yc mc dc : List Char,
        resolveDateFull none "no date here" "2099-09-09" = fmtYMDChars yc mc dc ∧
        validYMD (digitsToNat yc) (digitsToNat mc) (digitsToNat dc) = true) :=
  ⟨dateResolver_validated_priority.2.1 "report_20250120.pdf" "ignored body"
      "2099-09-09" ['2', '0', '2', '5', '0', '1', '2', '0'] (by decide) (by decide),
    dateResolver_validated_priority.1 none "no date here" "2099-09-09"⟩

/-- C6 (counterexample): in the pivot of `app.py` the missing-value
filler is `0.0` (`fill_value=0.0`), which *equals* a zero score: with a
real zero score for 甲 on 2025-01-19 and no record for 乙 on that date,
both cells read 0 — the sentinel is not distinct from a zero score, and a
cell with score 0 is indistinguishable from a cell with no data. -/
theorem app_sentinel_equals_zero_score :
    hasRecordApp [⟨"甲", 0, "2025-01-19"⟩, ⟨"乙", 1, "2025-01-20"⟩]
      "2025-01-19" "乙" = false ∧
    cellApp [⟨"甲", 0, "2025-01-19"⟩, ⟨"乙", 1, "2025-01-20"⟩]
      "2025-01-19" "乙" = 0 ∧
    hasRecordApp [⟨"甲", 0, "2025-01-19"⟩, ⟨"乙", 1, "2025-01-20"⟩]
      "2025-01-19" "甲" = true ∧
    cellApp [⟨"甲", 0, "2025-01-19"⟩, ⟨"乙", 1, "2025-01-20"⟩]
      "2025-01-19" "甲" = 0 := by
  refine ⟨by decide, by decide, by decide, by decide⟩

/-- C6 (amended): in the `streamlit_app.py` pivot the claim holds: every
cell for a (date, instrument) pair with no record holds the sentinel
`"--"`, and a zero score displays as `"0"`, distinct from the sentinel —
but in the `app.py` pivot the missing-value filler is `0.0`, equal to a
zero score (see the counterexample). -/
theorem lite_sentinel_distinct :
    (∀ (recs : List Record) (d c : String),
      hasRecordLite recs d c = false → pivotCellLite recs d c = "--") ∧
    pivotCellLite [⟨"白糖", "0", "2025-01-20"⟩] "2025-01-20" "白糖" = "0" ∧
    pivotCellLite [⟨"白糖", "0", "2025-01-20"⟩] "2025-01-20" "白糖" ≠ "--" := by
  refine ⟨?_, by decide, by decide⟩
  intro recs d c h
  unfold pivotCellLite
  have hn : recs.find? (fun r => r.date == d && r.variety == c) = none := by
    rw [List.find?_eq_none]
    intro x hx hpx
    have hc : hasRecordLite recs d c = true := by
      unfold hasRecordLite
      exact List.any_eq_true.mpr ⟨x, hx, hpx⟩
    rw [h] at hc
    cases hc
  rw [hn]

/-- C6 (witness): the sentinel theorem applied to a store holding only
(2025-01-20, 铜), read at the empty cell (2025-01-19, 铜). -/
theorem lite_sentinel_distinct_witness :
    pivotCellLite [⟨"铜", "1", "2025-01-20"⟩] "2025-01-19" "铜" = "--" :=
  lite_sentinel_distinct.1 [⟨"铜", "1", "2025-01-20"⟩] "2025-01-19" "铜" (by decide)

/-- C7 (counterexample): in `app.py`'s change table, a missing cell holds
the filler 0.0, so a missing cell above a genuine zero score compares
equal and row 1's cell for 乙 is *not* flagged, although the claim
("sentinel versus any number counts as a difference") requires a flag:
乙 has no record on 2025-01-19 and the number 0 on 2025-01-20. -/
theorem annotator_missing_vs_zero_unflagged :
    hasRecordApp [⟨"甲", 1, "2025-01-19"⟩, ⟨"甲", 1, "2025-01-20"⟩,
      ⟨"乙", 0, "2025-01-20"⟩] "2025-01-19" "乙" = false ∧
    hasRecordApp [⟨"甲", 1, "2025-01-19"⟩, ⟨"甲", 1, "2025-01-20"⟩,
      ⟨"乙", 0, "2025-01-20"⟩] "2025-01-20" "乙" = true ∧
    datesAppAsc [⟨"甲", 1, "2025-01-19"⟩, ⟨"甲", 1, "2025-01-20"⟩,
      ⟨"乙", 0, "2025-01-20"⟩] = ["2025-01-19", "2025-01-20"] ∧
    changeCellApp [⟨"甲", 1, "2025-01-19"⟩, ⟨"甲", 1, "2025-01-20"⟩,
      ⟨"乙", 0, "2025-01-20"⟩] 1 "乙" = "0" ∧
    changeCellApp [⟨"甲", 1, "2025-01-19"⟩, ⟨"甲", 1, "2025-01-20"⟩,
      ⟨"乙", 0, "2025-01-20"⟩] 1 "乙" ≠ "★0" := by
  refine ⟨by decide, by decide, by decide, by decide, by decide⟩

/-- C7 (amended): the change annotator of `app.py` leaves every cell of
row 0 (oldest) unflagged regardless of value, and flags a cell at row
i > 0 (prefixing `★`) iff its raw matrix value differs from the same
column's value at row i-1 under exact equality — where a missing cell
holds the fill value 0.0, so missing-versus-missing and
missing-versus-zero-score compare equal (unflagged) and only
missing-versus-nonzero counts as a difference. -/
theorem changeCell_flag_iff :
    (∀ (recs : List RecordApp) (col : String),
      changeCellApp recs 0 col =
        ratToStr (cellApp recs ((datesAppAsc recs).getD 0 "") col)) ∧
    (∀ (recs : List RecordApp) (col : String) (i : Nat), 0 < i →
      (changeCellApp recs i col =
          "★" ++ ratToStr (cellApp recs ((datesAppAsc recs).getD i "") col) ↔
        cellApp recs ((datesAppAsc recs).getD i "") col ≠
          cellApp recs ((datesAppAsc recs).getD (i - 1) "") col)) := by
  constructor
  · intro recs col
    rfl
  · intro recs col i hi
    have hne0 : ¬i = 0 := Nat.pos_iff_ne_zero.mp hi
    unfold changeCellApp
    dsimp only
    rw [if_neg hne0]
    by_cases hne : cellApp recs ((datesAppAsc recs).getD i "") col ≠
        cellApp recs ((datesAppAsc recs).getD (i - 1) "") col
    · rw [if_pos hne]
      exact iff_of_true rfl hne
    · rw [if_neg hne]
      refine iff_of_false ?_ hne
      intro he
      have hlen := congrArg String.length he
      rw [String.length_append] at hlen
      have hstar : ("★" : String).length = 1 := by decide
      rw [hstar] at hlen
      omega

/-- C7 (witness): the flag-iff theorem applied at row 1 of the concrete
two-day matrix where 甲 moves from 1 to 2. -/
theorem changeCell_flag_iff_witness :
    changeCellApp [⟨"甲", 1, "2025-01-19"⟩, ⟨"甲", 2, "2025-01-20"⟩] 0 "甲" =
      ratToStr (cellApp [⟨"甲", 1, "2025-01-19"⟩, ⟨"甲", 2, "2025-01-20"⟩]
        ((datesAppAsc [⟨"甲", 1, "2025-01-19"⟩, ⟨"甲", 2, "2025-01-20"⟩]).getD 0 "")
        "甲") ∧
    (changeCellApp [⟨"甲", 1, "2025-01-19"⟩, ⟨"甲", 2, "2025-01-20"⟩] 1 "甲" =
        "★" ++ ratToStr (cellApp [⟨"甲", 1, "2025-01-19"⟩, ⟨"甲", 2, "2025-01-20"⟩]
          ((datesAppAsc [⟨"甲", 1, "2025-01-19"⟩, ⟨"甲", 2, "2025-01-20"⟩]).getD 1 "")
          "甲") ↔
      cellApp [⟨"甲", 1, "2025-01-19"⟩, ⟨"甲", 2, "2025-01-20"⟩]
          ((datesAppAsc [⟨"甲", 1, "2025-01-19"⟩, ⟨"甲", 2, "2025-01-20"⟩]).getD 1 "")
          "甲" ≠
        cellApp [⟨"甲", 1, "2025-01-19"⟩, ⟨"甲", 2, "2025-01-20"⟩]
          ((datesAppAsc [⟨"甲", 1, "2025-01-19"⟩, ⟨"甲", 2, "2025-01-20"⟩]).getD 0 "")
          "甲") :=
  ⟨changeCell_flag_iff.1 [⟨"甲", 1, "2025-01-19"⟩, ⟨"甲", 2, "2025-01-20"⟩] "甲",
    changeCell_flag_iff.2 [⟨"甲", 1, "2025-01-19"⟩, ⟨"甲", 2, "2025-01-20"⟩] "甲" 1
      (by decide)⟩

/-! ## Supporting lemmas for the extractor-invariant claim -/

theorem validVariety_props (v : String) (h : validVariety v = true) :
    v.data ≠ [] ∧ v.data.all isAllowedPrimary = true ∧
    (invalidKeywords.any fun kw => containsStr kw v) = false ∧
    pyIsDigit v = false := by
  unfold validVariety at h
  rw [Bool.and_eq_true, Bool.and_eq_true, Bool.and_eq_true] at h
  obtain ⟨⟨⟨h1, h2⟩, h3⟩, h4⟩ := h
  rw [Bool.and_eq_true] at h4
  refine ⟨?_, h4.2, ?_, ?_⟩
  · exact List.length_pos.mp (of_decide_eq_true h1)
  · simp only [Bool.not_eq_true'] at h2
    exact h2
  · simp only [Bool.not_eq_true'] at h3
    exact h3

theorem roundHalfEven_le (q : ℚ) (h : q ≤ 10) : roundHalfEven q ≤ 10 := by
  have hd : (0 : ℤ) < (q.den : ℤ) := Int.natCast_pos.mpr q.den_pos
  have hfl : q.num / (q.den : ℤ) = ⌊q⌋ := Rat.floor_def.symm
  have h10 : ⌊q⌋ ≤ 10 := by
    have h2 : ⌊q⌋ ≤ ⌊(10 : ℚ)⌋ := Int.floor_le_floor h
    norm_num at h2
    exact h2
  unfold roundHalfEven
  dsimp only
  by_cases hc1 : 2 * (q.num % (q.den : ℤ)) < (q.den : ℤ)
  · rw [if_pos hc1, hfl]
    exact h10
  · rw [if_neg hc1]
    have hr0 : q.num % (q.den : ℤ) ≠ 0 := by
      intro h0
      rw [h0] at hc1
      omega
    have h9 : ⌊q⌋ ≤ 9 := by
      by_contra hgt
      push_neg at hgt
      have hfe : ⌊q⌋ = 10 := le_antisymm h10 hgt
      have hq10 : (10 : ℚ) ≤ q := by
        have hle := Int.floor_le q
        rw [hfe] at hle
        exact_mod_cast hle
      have hqe : q = 10 := le_antisymm h hq10
      apply hr0
      rw [hqe]
      decide
    by_cases hc2 : (q.den : ℤ) < 2 * (q.num % (q.den : ℤ))
    · rw [if_pos hc2, hfl]
      omega
    · rw [if_neg hc2]
      by_cases hc3 : q.num / (q.den : ℤ) % 2 = 0
      · rw [if_pos hc3, hfl]
        exact h10
      · rw [if_neg hc3, hfl]
        omega

theorem roundHalfEven_ge (q : ℚ) (h : -10 ≤ q) : -10 ≤ roundHalfEven q := by
  have hfl : q.num / (q.den : ℤ) = ⌊q⌋ := Rat.floor_def.symm
  have hlow : -10 ≤ ⌊q⌋ := by
    have h2 : ⌊(-10 : ℚ)⌋ ≤ ⌊q⌋ := Int.floor_le_floor h
    norm_num at h2
    exact h2
  unfold roundHalfEven
  dsimp only
  by_cases hc1 : 2 * (q.num % (q.den : ℤ)) < (q.den : ℤ)
  · rw [if_pos hc1, hfl]
    exact hlow
  · rw [if_neg hc1]
    by_cases hc2 : (q.den : ℤ) < 2 * (q.num % (q.den : ℤ))
    · rw [if_pos hc2, hfl]
      omega
    · rw [if_neg hc2]
      by_cases hc3 : q.num / (q.den : ℤ) % 2 = 0
      · rw [if_pos hc3, hfl]
        exact hlow
      · rw [if_neg hc3, hfl]
        omega

theorem processLite_mem (ms : List (String × String))
    (seen : List (String × String)) (date : String) (r : Record)
    (hr : r ∈ processLite ms seen date) :
    validVariety r.variety = true ∧ r.date = date ∧
    ∃ q : ℚ, -10 ≤ q ∧ q ≤ 10 ∧ r.strength = toString (roundHalfEven q) := by
  induction ms generalizing seen with
  | nil => cases hr
  | cons m rest ih =>
    obtain ⟨v, n⟩ := m
    simp only [processLite] at hr
    by_cases hv : validVariety (stripLabelSuffix (pyStrip v)) = true
    · rw [if_pos hv] at hr
      cases hq : pyFloat? n with
      | none =>
        rw [hq] at hr
        exact ih seen hr
      | some q =>
        rw [hq] at hr
        dsimp only at hr
        by_cases hrange : -10 ≤ q ∧ q ≤ 10
        · rw [if_pos hrange] at hr
          by_cases hseen :
              (stripLabelSuffix (pyStrip v), toString (roundHalfEven q)) ∈ seen
          · rw [if_pos hseen] at hr
            exact ih seen hr
          · rw [if_neg hseen] at hr
            rcases List.mem_cons.mp hr with he | hm
            · subst he
              exact ⟨hv, rfl, q, hrange.1, hrange.2, rfl⟩
            · exact ih _ hm
        · rw [if_neg hrange] at hr
          exact ih seen hr
    · rw [if_neg hv] at hr
      exact ih seen hr

theorem processFullPrim_mem (ms : List (String × String))
    (seen : List (String × String)) (date : String) (r : RecordFull)
    (hr : r ∈ processFullPrim ms seen date) :
    validVariety r.variety = true ∧ r.date = date ∧ r.category = none ∧
    -10 ≤ r.value ∧ r.value ≤ 10 := by
  induction ms generalizing seen with
  | nil => cases hr
  | cons m rest ih =>
    obtain ⟨v, n⟩ := m
    simp only [processFullPrim] at hr
    by_cases hv : validVariety (stripLabelSuffix (pyStrip v)) = true
    · rw [if_pos hv] at hr
      cases hq : pyFloat? n with
      | none =>
        rw [hq] at hr
        exact ih seen hr
      | some q =>
        rw [hq] at hr
        dsimp only at hr
        by_cases hrange : -10 ≤ q ∧ q ≤ 10
        · rw [if_pos hrange] at hr
          by_cases hseen : (stripLabelSuffix (pyStrip v), n) ∈ seen
          · rw [if_pos hseen] at hr
            exact ih seen hr
          · rw [if_neg hseen] at hr
            rcases List.mem_cons.mp hr with he | hm
            · subst he
              exact ⟨hv, rfl, rfl, hrange.1, hrange.2⟩
            · exact ih _ hm
        · rw [if_neg hrange] at hr
          exact ih seen hr
    · rw [if_neg hv] at hr
      exact ih seen hr

theorem tryCapK_sound (tailM : List Char → Option (List Char × List Char))
    (cs : List Char) (k : Nat) (cap num rest : List Char)
    (h : tryCapK tailM cs k = some (cap, num, rest)) :
    ∃ j, 1 ≤ j ∧ j ≤ k ∧ cap = cs.take j := by
  induction k with
  | zero => cases h
  | succ k ih =>
    rw [tryCapK] at h
    cases ht : tailM (cs.drop (k + 1)) with
    | some p =>
      obtain ⟨num2, rest2⟩ := p
      rw [ht] at h
      dsimp only at h
      rw [Option.some.injEq, Prod.mk.injEq, Prod.mk.injEq] at h
      exact ⟨k + 1, by omega, le_refl _, h.1.symm⟩
    | none =>
      rw [ht] at h
      dsimp only at h
      obtain ⟨j, hj1, hj2, hj3⟩ := ih h
      exact ⟨j, hj1, Nat.le_succ_of_le hj2, hj3⟩

theorem take_run_all (classF : Char → Bool) (cs : List Char) (j : Nat)
    (hj : j ≤ (cs.takeWhile classF).length) (hj1 : 1 ≤ j) :
    (cs.take j).all classF = true ∧ cs.take j ≠ [] := by
  constructor
  · obtain ⟨t, ht⟩ := List.takeWhile_prefix (l := cs) classF
    have hcast : cs.take j = (cs.takeWhile classF).take j := by
      conv_lhs => rw [← ht]
      exact List.take_append_of_le_length hj
    rw [List.all_eq_true]
    intro x hx
    rw [hcast] at hx
    exact List.mem_takeWhile_imp (List.take_subset _ _ hx)
  · intro he
    have hlen := congrArg List.length he
    rw [List.length_take] at hlen
    have hcs : (cs.takeWhile classF).length ≤ cs.length :=
      (List.takeWhile_prefix classF).length_le
    simp only [List.length_nil] at hlen
    omega

theorem scanAux_sound (classF : Char → Bool)
    (tailM : List Char → Option (List Char × List Char)) :
    ∀ (fuel : Nat) (cs : List Char) (v n : String),
      (v, n) ∈ scanAux classF tailM fuel cs →
      v.data ≠ [] ∧ v.data.all classF = true := by
  intro fuel
  induction fuel with
  | zero =>
    intro cs v n h
    cases h
  | succ fuel ih =>
    intro cs v n h
    cases cs with
    | nil => cases h
    | cons c cs2 =>
      simp only [scanAux] at h
      cases hm : tryCapK tailM (c :: cs2) ((c :: cs2).takeWhile classF).length with
      | some p =>
        obtain ⟨cap, num, rest⟩ := p
        rw [hm] at h
        dsimp only at h
        rcases List.mem_cons.mp h with he | hmem
        · rw [Prod.mk.injEq] at he
          obtain ⟨hv, _⟩ := he
          subst hv
          obtain ⟨j, hja, hjb, hjc⟩ := tryCapK_sound tailM (c :: cs2) _ cap num rest hm
          have hrun := take_run_all classF (c :: cs2) j hjb hja
          rw [hjc]
          exact ⟨hrun.2, hrun.1⟩
        · exact ih rest v n hmem
      | none =>
        rw [hm] at h
        dsimp only at h
        exact ih cs2 v n h

theorem dedupFirstByName_subset (l : List (String × String)) (seen : List String)
    (p : String × String) (h : p ∈ dedupFirstByName l seen) : p ∈ l := by
  induction l generalizing seen with
  | nil => cases h
  | cons q rest ih =>
    obtain ⟨v, n⟩ := q
    simp only [dedupFirstByName] at h
    by_cases hs : pyStrip v ∈ seen
    · rw [if_pos hs] at h
      exact List.mem_cons_of_mem _ (ih seen h)
    · rw [if_neg hs] at h
      rcases List.mem_cons.mp h with he | hm
      · exact he ▸ List.mem_cons_self _ _
      · exact List.mem_cons_of_mem _ (ih _ hm)

theorem fbRecords_mem (cat date : String) (l : List (String × String)) :
    ∀ (i : Nat) (r : RecordFull), r ∈ fbRecords cat date l i →
      ∃ v n : String, (v, n) ∈ l ∧ r.variety = pyStrip v ∧
        r.category = some cat ∧ -10 ≤ r.value ∧ r.value ≤ 10 := by
  induction l with
  | nil =>
    intro i r h
    cases h
  | cons p rest ih =>
    intro i r h
    obtain ⟨v, n⟩ := p
    simp only [fbRecords] at h
    cases hq : pyFloat? n with
    | none =>
      rw [hq] at h
      dsimp only at h
      obtain ⟨v2, n2, hm, hrest⟩ := ih (i + 1) r h
      exact ⟨v2, n2, List.mem_cons_of_mem _ hm, hrest⟩
    | some q =>
      rw [hq] at h
      dsimp only at h
      by_cases hrange : -10 ≤ q ∧ q ≤ 10
      · rw [if_pos hrange] at h
        rcases List.mem_cons.mp h with he | hm
        · subst he
          exact ⟨v, n, List.mem_cons_self _ _, rfl, rfl, hrange.1, hrange.2⟩
        · obtain ⟨v2, n2, hm2, hrest⟩ := ih (i + 1) r hm
          exact ⟨v2, n2, List.mem_cons_of_mem _ hm2, hrest⟩
      · rw [if_neg hrange] at h
        obtain ⟨v2, n2, hm2, hrest⟩ := ih (i + 1) r h
        exact ⟨v2, n2, List.mem_cons_of_mem _ hm2, hrest⟩

theorem cjk_not_space (c : Char) (h : isCJKFull c = true) : pySpace c = false := by
  unfold isCJKFull at h
  rw [Bool.and_eq_true, decide_eq_true_eq, decide_eq_true_eq] at h
  unfold pySpace
  have h1 : c ≠ ' ' := by intro he; subst he; exact absurd h (by decide)
  have h2 : c ≠ '\t' := by intro he; subst he; exact absurd h (by decide)
  have h3 : c ≠ '\n' := by intro he; subst he; exact absurd h (by decide)
  have h4 : c ≠ '\r' := by intro he; subst he; exact absurd h (by decide)
  have h5 : c ≠ '\x0b' := by intro he; subst he; exact absurd h (by decide)
  have h6 : c ≠ '\x0c' := by intro he; subst he; exact absurd h (by decide)
  simp [h1, h2, h3, h4, h5, h6]

theorem pyStripList_cjk (l : List Char) (hall : l.all isCJKFull = true) :
    pyStripList l = l := by
  unfold pyStripList
  have h1 : l.dropWhile pySpace = l := by
    cases l with
    | nil => rfl
    | cons c t =>
      rw [List.dropWhile_cons]
      have hc : isCJKFull c = true :=
        List.all_eq_true.mp hall c (List.mem_cons_self _ _)
      rw [cjk_not_space c hc]
      simp
  rw [h1]
  have h2 : l.reverse.dropWhile pySpace = l.reverse := by
    cases hrev : l.reverse with
    | nil => rfl
    | cons c t =>
      rw [List.dropWhile_cons]
      have hcm : c ∈ l := by
        rw [← List.mem_reverse, hrev]
        exact List.mem_cons_self _ _
      have hc : isCJKFull c = true := List.all_eq_true.mp hall c hcm
      rw [cjk_not_space c hc]
      simp
  rw [h2, List.reverse_reverse]

theorem extractFullFallback_mem (text : String) (date : String) (r : RecordFull)
    (h : r ∈ extractFullFallback text date) :
    -10 ≤ r.value ∧ r.value ≤ 10 ∧ r.variety.data ≠ [] ∧
    r.variety.data.all isCJKFull = true ∧ r.category ≠ none := by
  unfold extractFullFallback at h
  cases hs : findTrendSection text.data with
  | none =>
    rw [hs] at h
    cases h
  | some sect =>
    rw [hs] at h
    dsimp only at h
    rw [List.mem_flatten] at h
    obtain ⟨block, hblock, hrb⟩ := h
    rw [List.mem_map] at hblock
    obtain ⟨cat, _, hcat⟩ := hblock
    subst hcat
    cases hc : catContent cat.data sect with
    | none =>
      rw [hc] at hrb
      cases hrb
    | some rc =>
      rw [hc] at hrb
      dsimp only at hrb
      by_cases hemp : (pyStripList rc).isEmpty = true
      · rw [if_pos hemp] at hrb
        cases hrb
      · rw [if_neg hemp] at hrb
        obtain ⟨v, n, hmem, hvar, hcateq, hlo, hhi⟩ :=
          fbRecords_mem cat date _ 1 r hrb
        have hvs := dedupFirstByName_subset _ [] _ hmem
        have hsound : v.data ≠ [] ∧ v.data.all isCJKFull = true := by
          rcases List.mem_append.mp hvs with hv12 | hv3
          · rcases List.mem_append.mp hv12 with hv1 | hv2
            · exact scanAux_sound isCJKFull fbTailParen _ _ v n hv1
            · exact scanAux_sound isCJKFull fbTailColon _ _ v n hv2
          · exact scanAux_sound isCJKFull fbTailSpaceNum _ _ v n hv3
        have hstrip : pyStrip v = v := by
          unfold pyStrip
          rw [pyStripList_cjk v.data hsound.2]
        rw [hvar, hstrip]
        refine ⟨hlo, hhi, hsound.1, hsound.2, ?_⟩
        rw [hcateq]
        intro hne
        cases hne

/-- C2 (counterexample): the fallback sectioned-category pass applies no
denylist (nor purely-numeric or primary character-class) check: on the
text `"【趋势强度】\n偏强：东莞(2)"` the primary pass matches nothing, the
fallback emits a Record whose instrument is the denylisted token 东莞 —
refuting "contains no token of the fixed denylist of
administrative/noise tokens" for Extractor-emitted records. -/
theorem fallback_emits_denylisted_instrument :
    extractFull "【趋势强度】\n偏强：东莞(2)" (some "2025-01-20") "2099-01-01" =
      [⟨"东莞", "2", 2, some 1, some "偏强", "2025-01-20"⟩] ∧
    "东莞" ∈ invalidKeywords ∧
    containsStr "东莞" "东莞" = true := by
  refine ⟨by decide, by decide, by decide⟩

/-- C2 (amended): every Record emitted by the *primary* pattern pass (in
`streamlit_app.py` and `streamlit_app_full.py`) satisfies all the Record
invariants — non-empty instrument drawn from the allowed character class,
no denylisted substring, not purely numeric, and score within [-10, 10]
(in `streamlit_app.py` the stored score is the rounded integer string,
still within the range).  Every Record emitted by the *fallback* pass of
`streamlit_app_full.py` has its score in [-10, 10] and a non-empty
instrument of CJK ideographs only, but the fallback applies no denylist,
purely-numeric, or primary character-class check and can emit a
denylisted instrument (see the counterexample). -/
theorem extractor_invariants :
    (∀ (text : String) (rd : Option String) (today : String) (r : Record),
      r ∈ extractLite text rd today →
      r.variety.data ≠ [] ∧
      r.variety.data.all isAllowedPrimary = true ∧
      (invalidKeywords.any fun kw => containsStr kw r.variety) = false ∧
      pyIsDigit r.variety = false ∧
      ∃ z : ℤ, r.strength = toString z ∧ -10 ≤ z ∧ z ≤ 10) ∧
    (∀ (text : String) (rd : Option String) (today : String) (r : RecordFull),
      r ∈ extractFull text rd today →
      -10 ≤ r.value ∧ r.value ≤ 10 ∧ r.variety.data ≠ [] ∧
      (r.category = none →
        r.variety.data.all isAllowedPrimary = true ∧
        (invalidKeywords.any fun kw => containsStr kw r.variety) = false ∧
        pyIsDigit r.variety = false) ∧
      (r.category ≠ none → r.variety.data.all isCJKFull = true)) := by
  constructor
  · intro text rd today r hr
    obtain ⟨hv, _, q, hq1, hq2, hqs⟩ :=
      processLite_mem (primMatches text) [] (rd.getD today) r hr
    obtain ⟨hne, hclass, hkw, hdig⟩ := validVariety_props _ hv
    exact ⟨hne, hclass, hkw, hdig,
      roundHalfEven q, hqs, roundHalfEven_ge q hq1, roundHalfEven_le q hq2⟩
  · intro text rd today r hr
    unfold extractFull at hr
    dsimp only at hr
    by_cases hp : (processFullPrim (primMatches text)
        [] (resolveDateBody3 rd text today)).isEmpty = true
    · rw [if_pos hp] at hr
      obtain ⟨hlo, hhi, hne, hclass, hcat⟩ := extractFullFallback_mem _ _ r hr
      refine ⟨hlo, hhi, hne, ?_, fun _ => hclass⟩
      intro hnone
      exact absurd hnone hcat
    · rw [if_neg hp] at hr
      obtain ⟨hv, _, hcat, hlo, hhi⟩ := processFullPrim_mem _ _ _ r hr
      obtain ⟨hne, hclass, hkw, hdig⟩ := validVariety_props _ hv
      refine ⟨hlo, hhi, hne, fun _ => ⟨hclass, hkw, hdig⟩, ?_⟩
      intro hsome
      exact absurd hcat hsome

/-- C2 (witness): the invariants theorem applied to the record produced by
the primary pass of `streamlit_app.py` on `"白糖 趋势强度: 3.5"` and to
the record produced by the fallback pass of `streamlit_app_full.py` on a
sectioned text. -/
theorem extractor_invariants_witness :
    (("白糖" : String).data ≠ [] ∧
      ("白糖" : String).data.all isAllowedPrimary = true ∧
      (invalidKeywords.any fun kw => containsStr kw "白糖") = false ∧
      pyIsDigit "白糖" = false ∧
      ∃ z : ℤ, ("4" : String) = toString z ∧ -10 ≤ z ∧ z ≤ 10) ∧
    (-10 ≤ (2 : ℚ) ∧ (2 : ℚ) ≤ 10 ∧ ("镍" : String).data ≠ [] ∧
      ((some "偏强" : Option String) = none →
        ("镍" : String).data.all isAllowedPrimary = true ∧
        (invalidKeywords.any fun kw => containsStr kw "镍") = false ∧
        pyIsDigit "镍" = false) ∧
      ((some "偏强" : Option String) ≠ none →
        ("镍" : String).data.all isCJKFull = true)) :=
  ⟨extractor_invariants.1 "白糖 趋势强度: 3.5" (some "2025-01-20") "2099-01-01"
      ⟨"白糖", "4", "2025-01-20"⟩ (by decide),
    extractor_invariants.2 "【趋势强度】\n偏强：镍(2)" (some "2025-01-20")
      "2099-01-01" ⟨"镍", "2", 2, some 1, some "偏强", "2025-01-20"⟩ (by decide)⟩

end PdfTrend
